import Mathlib

/-!
Verification of the invoice extraction-and-reconciliation engine
(`app.py`): a shallow embedding of its pure core into Lean, together with
proofs and refutations of the specified properties.

Modelling conventions:
* Python strings are modelled as Lean `String`/`List Char`; the character
  classes of the regular expressions (`\s`, `[^\S\r\n]`, `\d`) and
  `str.lower`/`str.strip` are modelled over their ASCII behaviour, which
  coincides with Python's on the ASCII inputs used throughout.
* Python `float` values are modelled as exact rationals `ℚ`; the parsing
  of the digit/dot strings reaching `float()` is exact.
* Fallible code (a `ValueError` escaping `float()`) is modelled with
  `Except`/`Option`; `Except.error ()` marks a raised exception.
-/

set_option autoImplicit false

/-! ### Character-class helpers (ASCII behaviour of Python's `\s`, `\d`, `lower`, `strip`) -/
/-- Python whitespace (`\s` and `str.strip`/`str.split()` default class), ASCII part:
space, tab, newline, carriage return, vertical tab, form feed. -/
def isPySpace (c : Char) : Bool :=
  (c == ' ') || (c == '\t') || (c == '\n') || (c == '\r') ||
  (c == Char.ofNat 11) || (c == Char.ofNat 12)

/-- The class `[^\S\r\n]` of the field-extraction regex: whitespace that is
neither carriage return nor newline (intra-line whitespace). -/
def isIntraSpace (c : Char) : Bool :=
  isPySpace c && !(c == '\r') && !(c == '\n')

/-- ASCII `str.lower` on a character list. -/
def lowerList (l : List Char) : List Char :=
  l.map Char.toLower

/-- Tests whether `pat` is a prefix of `s` (character-exact). -/
def listStartsWith : List Char → List Char → Bool
  | [], _ => true
  | _ :: _, [] => false
  | p :: ps, c :: cs => (p == c) && listStartsWith ps cs

/-- Tests whether `pat` is a prefix of `s` up to ASCII case folding (for `re.IGNORECASE`). -/
def listStartsWithCI : List Char → List Char → Bool
  | [], _ => true
  | _ :: _, [] => false
  | p :: ps, c :: cs => (p.toLower == c.toLower) && listStartsWithCI ps cs

/-- Python's substring test `pat in s`: `pat` occurs (contiguously) in `s`. -/
def containsSub (pat : List Char) : List Char → Bool
  | [] => listStartsWith pat []
  | c :: cs => listStartsWith pat (c :: cs) || containsSub pat cs

/-- Python `str.strip()` (ASCII whitespace) on a character list. -/
def pyStripL (l : List Char) : List Char :=
  ((l.dropWhile isPySpace).reverse.dropWhile isPySpace).reverse

/-- Python `str.strip()` on strings. -/
def pyStrip (s : String) : String :=
  String.mk (pyStripL s.toList)

/-- Python `str.replace(pat, repl)` (all occurrences, left to right,
non-overlapping) for a non-empty pattern `p :: ps`.  The `fuel` argument
makes the recursion structural; it is initialised to the list length by
`pyReplace`, which always suffices (each step consumes at least one
character), so the fuel-exhausted branch is unreachable. -/
def pyReplaceFuel (p : Char) (ps : List Char) (repl : List Char) : ℕ → List Char → List Char
  | _, [] => []
  | 0, c :: cs => c :: cs
  | fuel + 1, c :: cs =>
    if listStartsWith (p :: ps) (c :: cs) then
      repl ++ pyReplaceFuel p ps repl fuel (cs.drop ps.length)
    else
      c :: pyReplaceFuel p ps repl fuel cs

/-- Python `str.replace` on strings (an empty pattern, unused by the program,
is modelled as the identity). -/
def pyReplace (s pat repl : String) : String :=
  match pat.toList with
  | [] => s
  | p :: ps => String.mk (pyReplaceFuel p ps repl.toList s.toList.length s.toList)

/-- Python `str.split(sep)` for a non-empty separator `p :: ps`:
accumulates the current segment in `acc` (reversed).  Structural fuel as in
`pyReplaceFuel`; the fuel-exhausted branch is unreachable from `pySplitStr`. -/
def pySplitFuel (p : Char) (ps : List Char) : ℕ → List Char → List Char → List (List Char)
  | _, acc, [] => [acc.reverse]
  | 0, acc, c :: cs => [acc.reverse ++ (c :: cs)]
  | fuel + 1, acc, c :: cs =>
    if listStartsWith (p :: ps) (c :: cs) then
      acc.reverse :: pySplitFuel p ps fuel [] (cs.drop ps.length)
    else
      pySplitFuel p ps fuel (c :: acc) cs

/-- Python `str.split(sep)` on strings (non-empty separator; `split("")`
raises in Python and is never used by the program). -/
def pySplitStr (s sep : String) : List String :=
  match sep.toList with
  | [] => [s]
  | p :: ps => (pySplitFuel p ps s.toList.length [] s.toList).map String.mk

/-! ### NumericNormalizer — `clean_numeric_value` (app.py lines 20-23) -/
/-- A Python value as it flows through `clean_numeric_value` and the table
cells: a string, an (already numeric) float, or `None`. -/
inductive PyVal where
  | str (s : String)
  | num (q : ℚ)
  | noneV
deriving DecidableEq

/-- Numeric value of a digit list, most significant first. -/
def natOfDigitsL (l : List Char) : ℕ :=
  l.foldl (fun a c => 10 * a + (c.toNat - 48)) 0

/-- Python `float(s)` restricted to the strings that can reach it in this
program (characters drawn from digits and `.`; `float` succeeds exactly when
there is at least one digit and at most one dot).  `none` models a raised
`ValueError`. -/
def parsePyFloat (s : List Char) : Option ℚ :=
  if s.all (fun c => c.isDigit || c == '.') && s.any (fun c => c.isDigit)
      && s.count '.' ≤ 1 then
    match s.splitOn '.' with
    | [a] => some (mkRat (natOfDigitsL a) 1)
    | [a, b] => some (mkRat (natOfDigitsL a * 10 ^ b.length + natOfDigitsL b) (10 ^ b.length))
    | _ => none
  else
    none

/-- The cleaning step of `clean_numeric_value`:
`re.sub(r"[^\d.]", "", value.replace(",", ""))`. -/
def pyCleanNumericL (s : List Char) : List Char :=
  (pyReplaceFuel ',' [] [] s.length s).filter (fun c => c.isDigit || c == '.')

instance {ε α : Type} [DecidableEq ε] [DecidableEq α] : DecidableEq (Except ε α)
  | .error e, .error f =>
    if h : e = f then .isTrue (by rw [h]) else .isFalse (by intro k; injection k; exact h (by assumption))
  | .error _, .ok _ => .isFalse (by intro k; exact Except.noConfusion k)
  | .ok _, .error _ => .isFalse (by intro k; exact Except.noConfusion k)
  | .ok a, .ok b =>
    if h : a = b then .isTrue (by rw [h]) else .isFalse (by intro k; injection k; exact h (by assumption))

/-- Model of `clean_numeric_value` (app.py lines 20-23).  A string is cleaned and
parsed with `float`; there is no exception handler in the function, so an
unparseable cleaned string RAISES (`Except.error ()`).  Any non-string
input is returned unchanged. -/
def clean_numeric_value (v : PyVal) : Except Unit PyVal :=
  match v with
  | .str s =>
    match parsePyFloat (pyCleanNumericL s.toList) with
    | some q => .ok (.num q)
    | none => .error ()
  | v => .ok v

/-! ### TextFieldExtractor — `extract_value` (app.py lines 61-66)

The regular expression `{kw}[^\S\r\n]*[:—=]?\s*([^\n|]+)` is fixed in shape,
so its backtracking search is modelled directly: each quantifier tries its
greedy-first alternatives in the exact order of the `re` engine, and the
search tries start positions left to right (`re.search`). -/
/-- Try `f n, f (n-1), …, f 0` in order and return the first success:
models backtracking a greedy `*` quantifier from its maximal run down. -/
def tryDesc {α : Type} (f : ℕ → Option α) : ℕ → Option α
  | 0 => f 0
  | n + 1 =>
    match f (n + 1) with
    | some x => some x
    | none => tryDesc f n

/-- The final capture group `([^\n|]+)`: the maximal run of characters that
are neither newline nor pipe, failing when empty. -/
def valCapture (cs : List Char) : Option (List Char) :=
  let cap := cs.takeWhile (fun c => !(c == '\n') && !(c == '|'))
  if cap.isEmpty then none else some cap

/-- The `\s*` before the capture: greedy, backtracking down to zero. -/
def valAfterSep (cs : List Char) : Option (List Char) :=
  tryDesc (fun b => valCapture (cs.drop b)) (cs.takeWhile isPySpace).length

/-- The optional separator `[:—=]?`: greedy (with-separator first). -/
def valSep (cs : List Char) : Option (List Char) :=
  match cs with
  | c :: rest =>
    if c == ':' || c == '—' || c == '=' then
      match valAfterSep rest with
      | some cap => some cap
      | none => valAfterSep (c :: rest)
    else valAfterSep (c :: rest)
  | [] => valAfterSep []

/-- The tail of the pattern after the keyword:
`[^\S\r\n]*[:—=]?\s*([^\n|]+)` with `re` backtracking order. -/
def matchValueAt (cs : List Char) : Option (List Char) :=
  tryDesc (fun a => valSep (cs.drop a)) (cs.takeWhile isIntraSpace).length

/-- Model of `re.search` of the whole pattern: leftmost start position wins; at a
position the (escaped, hence literal) keyword must match exactly, then the
tail pattern. -/
def searchValue (kw : List Char) : List Char → Option (List Char)
  | [] => if kw.isEmpty then matchValueAt [] else none
  | c :: cs =>
    if listStartsWith kw (c :: cs) then
      match matchValueAt ((c :: cs).drop kw.length) with
      | some cap => some cap
      | none => searchValue kw cs
    else searchValue kw cs

/-- Model of `extract_value` (app.py lines 61-66): `"N/A"` for empty text or no
match, else the captured group stripped of surrounding whitespace. -/
def extract_value (text keyword : String) : String :=
  if text == "" then "N/A"
  else
    match searchValue keyword.toList text.toList with
    | some cap => String.mk (pyStripL cap)
    | none => "N/A"

/-! ### NumericFieldExtractor — `extract_numeric_value` (app.py lines 68-78)

The pattern `{kw}\s*\(?EGP\)?\s*[:=]?\s*([\d,]+\.?\d*)` with
`re.IGNORECASE`, modelled with the same explicit backtracking technique. -/
/-- The capture `([\d,]+\.?\d*)`: a non-empty greedy run of digits and
commas, an optional dot, a greedy run of digits. -/
def numCapture (cs : List Char) : Option (List Char) :=
  let h := cs.takeWhile (fun c => c.isDigit || c == ',')
  if h.isEmpty then none
  else
    match cs.drop h.length with
    | '.' :: r2 => some (h ++ '.' :: r2.takeWhile (fun c => c.isDigit))
    | _ => some h

/-- The `\s*` before the capture. -/
def numAfterSep (cs : List Char) : Option (List Char) :=
  tryDesc (fun g => numCapture (cs.drop g)) (cs.takeWhile isPySpace).length

/-- The optional separator `[:=]?`. -/
def numSep (cs : List Char) : Option (List Char) :=
  match cs with
  | c :: rest =>
    if c == ':' || c == '=' then
      match numAfterSep rest with
      | some cap => some cap
      | none => numAfterSep (c :: rest)
    else numAfterSep (c :: rest)
  | [] => numAfterSep []

/-- The `\s*` after the currency marker. -/
def numAfterEgp (cs : List Char) : Option (List Char) :=
  tryDesc (fun e => numSep (cs.drop e)) (cs.takeWhile isPySpace).length

/-- The optional closing parenthesis `\)?`. -/
def numCloseParen (cs : List Char) : Option (List Char) :=
  match cs with
  | ')' :: rest =>
    match numAfterEgp rest with
    | some cap => some cap
    | none => numAfterEgp (')' :: rest)
  | _ => numAfterEgp cs

/-- The required literal `EGP` (case-insensitive). -/
def numEgp (cs : List Char) : Option (List Char) :=
  if listStartsWithCI ['E', 'G', 'P'] cs then numCloseParen (cs.drop 3) else none

/-- The optional opening parenthesis `\(?`. -/
def numOpenParen (cs : List Char) : Option (List Char) :=
  match cs with
  | '(' :: rest =>
    match numEgp rest with
    | some cap => some cap
    | none => numEgp ('(' :: rest)
  | _ => numEgp cs

/-- The tail of the numeric pattern after the keyword:
`\s*\(?EGP\)?\s*[:=]?\s*([\d,]+\.?\d*)`. -/
def matchNumericAt (cs : List Char) : Option (List Char) :=
  tryDesc (fun a => numOpenParen (cs.drop a)) (cs.takeWhile isPySpace).length

/-- Model of `re.search` for the numeric pattern; `re.IGNORECASE` makes the keyword
match case-insensitively. -/
def searchNumeric (kw : List Char) : List Char → Option (List Char)
  | [] => if kw.isEmpty then matchNumericAt [] else none
  | c :: cs =>
    if listStartsWithCI kw (c :: cs) then
      match matchNumericAt ((c :: cs).drop kw.length) with
      | some cap => some cap
      | none => searchNumeric kw cs
    else searchNumeric kw cs

/-- Model of `extract_numeric_value` (app.py lines 68-78): 0.0 for empty text, no
match, or a capture whose comma-stripped form `float` rejects; otherwise
the parsed capture. -/
def extract_numeric_value (text keyword : String) : ℚ :=
  if text == "" then 0
  else
    match searchNumeric keyword.toList text.toList with
    | some cap =>
      match parsePyFloat (cap.filter (fun c => !(c == ','))) with
      | some q => q
      | none => 0
    | none => 0

/-! ### TableRowExtractor — `extract_table_data` (app.py lines 33-59)

A page's extracted table is a list of raw rows; a raw cell is `None` or a
string (`Option String`).  A document's tables input is one table per page
(an absent table is the empty list, falsy in Python like `None`). -/
/-- A raw table row as produced by the parsing collaborator. -/
abbrev Row := List (Option String)

/-- One page's extracted table. -/
abbrev Table := List Row

/-- The single-quote character, used by Python `repr` for strings. -/
def squote : Char := Char.ofNat 39

/-- Python `str` of one cell inside a list: `None` or the quoted string.
Faithful for cell contents without quotes or backslashes (Python would
escape those); all inputs considered here are of that form. -/
def pyReprCellL : Option String → List Char
  | none => ['N', 'o', 'n', 'e']
  | some s => squote :: s.toList ++ [squote]

/-- The comma-space-joined cell list inside Python's `str(row)`. -/
def joinCells : List (Option String) → List Char
  | [] => []
  | [c] => pyReprCellL c
  | c :: c2 :: rest => pyReprCellL c ++ ',' :: ' ' :: joinCells (c2 :: rest)

/-- Python `str(row)` for a list of cells: `['a', 'b', None]`. -/
def pyReprRowL (row : Row) : List Char :=
  '[' :: joinCells row ++ [']']

/-- The header test of app.py line 42:
`any(col in str(row).lower() for col in ["code", "item", "description"])` —
the whole row's string rendering, lowercased, searched for the three
lowercase markers. -/
def isHeaderRow (row : Row) : Bool :=
  (["code", "item", "description"] : List String).any
    (fun m => containsSub m.toList (lowerList (pyReprRowL row)))

/-- The typed fields of one extracted table row (line items, app.py
lines 46-53).  The two numeric cells keep the `PyVal` produced by
`clean_numeric_value`: a parsed number, or `None` passed through. -/
structure ItemFields where
  codeName : String
  itemCode : String
  description : String
  quantityUnitType : String
  unitPrice : PyVal
  totalSalesAmount : PyVal
deriving DecidableEq

/-- Model of `row[i].strip() if row[i] else ""`: `None` and the empty string give
`""`, other strings are stripped. -/
def cellText (c : Option String) : String :=
  match c with
  | some s => if s == "" then "" else pyStrip s
  | none => ""

/-- Model of `row[3].split("/")[0].strip() if row[3] else ""`. -/
def cellQuantity (c : Option String) : String :=
  match c with
  | some s => if s == "" then "" else pyStrip ((pySplitStr s "/").headD "")
  | none => ""

/-- A raw cell as the `PyVal` handed to `clean_numeric_value`. -/
def pyValOfCell : Option String → PyVal
  | some s => .str s
  | none => .noneV

/-- The field mapping of app.py lines 46-53 for a row with at least 6
cells; `none` models the `except` branch (a `ValueError` raised by
`clean_numeric_value` drops the whole row). -/
def mapRow (row : Row) : Option ItemFields :=
  match clean_numeric_value (pyValOfCell (row.getD 4 none)),
        clean_numeric_value (pyValOfCell (row.getD 5 none)) with
  | .ok up, .ok ts =>
    some
      { codeName := cellText (row.getD 0 none)
        itemCode := cellText (row.getD 1 none)
        description := cellText (row.getD 2 none)
        quantityUnitType := cellQuantity (row.getD 3 none)
        unitPrice := up
        totalSalesAmount := ts }
  | _, _ => none

/-- The per-row processing of app.py lines 40-56: skip header rows, skip
rows with fewer than 6 cells, then attempt the field mapping. -/
def processRow (row : Row) : Option ItemFields :=
  if isHeaderRow row then none
  else if 6 ≤ row.length then mapRow row
  else none

/-- Model of `extract_table_data` (app.py lines 33-59): pages in order; a page's
table contributes only when it is non-empty with more than one row
(`if table and len(table) > 1`), and then contributes its successfully
processed rows in order. -/
def extract_table_data (tables : List Table) : List ItemFields :=
  (tables.map (fun t => if 1 < t.length then t.filterMap processRow else [])).flatten

/-! ### LineItemBuilder — `extract_invoice_line_items` (app.py lines 81-92) -/
/-- The six header fields shared by line items and summaries. -/
structure HeaderFields where
  status : String
  submissionDate : String
  issuanceDate : String
  internalID : String
  issuer : String
  recipients : String
deriving DecidableEq

/-- Model of `text.split("Recipients")[-1]`: the segment after the last occurrence
of `"Recipients"` (the whole text when it does not occur). -/
def splitRecipientsLast (text : String) : String :=
  (pySplitStr text "Recipients").getLastD ""

/-- The `base_data` header extraction of app.py lines 83-90; `Issuer` and
`Recipients` both use keyword `"Taxpayer Name"`, the latter on the
after-`"Recipients"` segment. -/
def extract_base_data (text : String) : HeaderFields :=
  { status := extract_value text "Status"
    submissionDate := extract_value text "Submission Date"
    issuanceDate := extract_value text "Issuance Date"
    internalID := extract_value text "Internal ID"
    issuer := extract_value text "Taxpayer Name"
    recipients := extract_value (splitRecipientsLast text) "Taxpayer Name" }

/-- Model of `extract_invoice_line_items` (app.py lines 81-92): one record per
extracted table row, each carrying the document's header fields.  (The
returned DataFrame is empty exactly when the list is empty; the
`"Source File"` column is attached by the route, app.py line 137.) -/
def extract_invoice_line_items (text : String) (tables : List Table) :
    List (HeaderFields × ItemFields) :=
  (extract_table_data tables).map (fun item => (extract_base_data text, item))

/-! ### DocumentSummaryBuilder — `extract_invoice_summary` (app.py lines 94-116) -/
/-- The one-per-document summary record (app.py lines 96-115), plus the
`"Source File"` column attached by the route (app.py line 144). -/
structure SummaryRecord where
  header : HeaderFields
  codeName : String
  itemCode : String
  description : String
  quantityUnitType : String
  unitPrice : ℚ
  totalSaleAmount : ℚ
  totalSales : ℚ
  totalDiscount : ℚ
  totalItemDiscount : ℚ
  valueAddedTax : ℚ
  extraInvoiceDiscount : ℚ
  totalAmount : ℚ
  sourceFile : String
deriving DecidableEq

/-- The text normalisation of app.py line 95:
`text.replace("|", "").replace("—", ":").replace("–", ":")`. -/
def normalizeSummaryText (text : String) : String :=
  pyReplace (pyReplace (pyReplace text "|" "") "—" ":") "–" ":"

/-- Model of `extract_invoice_summary` (app.py lines 94-116) on the already
extracted document text, with the route's `"Source File"` value. -/
def extract_invoice_summary (text : String) (src : String) : SummaryRecord :=
  let t := normalizeSummaryText text
  { header :=
      { status := extract_value t "Status"
        submissionDate := extract_value t "Submission Date"
        issuanceDate := extract_value t "Issuance Date"
        internalID := extract_value t "Internal ID"
        issuer := extract_value t "Taxpayer Name"
        recipients := extract_value (splitRecipientsLast t) "Taxpayer Name" }
    codeName := if containsSub "MNOs Services".toList t.toList then "MNOs Services" else "N/A"
    itemCode := extract_value t "Item Code"
    description := extract_value t "Description"
    quantityUnitType := extract_value t "Quantity/ Unit Type"
    unitPrice := extract_numeric_value t "Unit Price"
    totalSaleAmount := extract_numeric_value t "Total Sales Amount"
    totalSales := extract_numeric_value t "Total Sales"
    totalDiscount := extract_numeric_value t "Total discount"
    totalItemDiscount := extract_numeric_value t "Total Items Discount"
    valueAddedTax := extract_numeric_value t "Value added tax"
    extraInvoiceDiscount := extract_numeric_value t "Extra Invoice Discounts"
    totalAmount := extract_numeric_value t "Total Amount"
    sourceFile := src }

/-! ### DocumentMerger — the reconciliation of app.py lines 156-178 -/
/-- A line-item record as a row of the concatenated DataFrame `df_lines`:
header fields, item fields, and the `"Source File"` tag. -/
structure LineRecord where
  header : HeaderFields
  item : ItemFields
  sourceFile : String
deriving DecidableEq

/-- The columns of the line-items DataFrame, in declaration order
(app.py lines 83-90, 46-53, 137). -/
def lineItemColumns : List String :=
  ["Status", "Submission Date", "Issuance Date", "Internal ID", "Issuer", "Recipients",
   "Code Name", "Item Code", "Description", "Quantity / Unit Type", "Unit Price (EGP)",
   "Total Sales Amount (EGP)", "Source File"]

/-- The columns of the summaries DataFrame, in declaration order
(app.py lines 96-115, 144). -/
def summaryColumns : List String :=
  ["Status", "Submission Date", "Issuance Date", "Internal ID", "Issuer", "Recipients",
   "Code Name", "Item Code", "Description", "Quantity / Unit type", "Unit price (EGP)",
   "Total Sale Amount (EGP)", "Total Sales", "Total Discount", "Total Item discount",
   "Value added tax", "Extra invoice discount", "Total amount", "Source File"]

/-- app.py line 161:
`[col for col in df_summaries.columns if col not in df_lines.columns]`. -/
def extraColumns : List String :=
  summaryColumns.filter (fun c => !(lineItemColumns.contains c))

/-- The values of the nine extra columns, drawn from a summary record.
One transferred bundle per selected row: the merge writes all nine cells
of that row (app.py lines 175-176). -/
structure ExtraFields where
  quantityUnitType : String
  unitPrice : ℚ
  totalSaleAmount : ℚ
  totalSales : ℚ
  totalDiscount : ℚ
  totalItemDiscount : ℚ
  valueAddedTax : ℚ
  extraInvoiceDiscount : ℚ
  totalAmount : ℚ
deriving DecidableEq

/-- The extra-column values of one summary record
(`last_summary_row[extra_columns]`, app.py line 173). -/
def extrasOfSummary (s : SummaryRecord) : ExtraFields :=
  { quantityUnitType := s.quantityUnitType
    unitPrice := s.unitPrice
    totalSaleAmount := s.totalSaleAmount
    totalSales := s.totalSales
    totalDiscount := s.totalDiscount
    totalItemDiscount := s.totalItemDiscount
    valueAddedTax := s.valueAddedTax
    extraInvoiceDiscount := s.extraInvoiceDiscount
    totalAmount := s.totalAmount }

/-- A row of the merged DataFrame: the original line record, and the nine
extra cells — `none` models the NaN the cells hold unless the merge loop
wrote them (pandas fills unset cells of a column created by `.at`
assignment with NaN, which `to_excel` renders as blank). -/
structure MergedRecord where
  line : LineRecord
  extras : Option ExtraFields
deriving DecidableEq

/-- The last index of `l` satisfying `p` (`df.index[-1]` of the filtered
group), `none` when no row matches. -/
def lastIdxWhere {α : Type} (p : α → Prop) [DecidablePred p] : List α → Option ℕ
  | [] => none
  | x :: xs =>
    match lastIdxWhere p xs with
    | some j => some (j + 1)
    | none => if p x then some 0 else none

/-- Replace the extras of the record at index `j`
(`df_merged.at[last_index, col] = …` for the nine extra columns). -/
def updateExtras : List MergedRecord → ℕ → ExtraFields → List MergedRecord
  | [], _, _ => []
  | m :: ms, 0, e => { m with extras := some e } :: ms
  | m :: ms, j + 1, e => m :: updateExtras ms j e

/-- One iteration of the merge loop (app.py lines 165-176) for one
`file_name`: skip when the line group or the summary group is empty, else
write the last matching summary's extra fields onto the last line row of
the group. -/
def mergeStep (S : List SummaryRecord) (merged : List MergedRecord) (fn : String) :
    List MergedRecord :=
  match lastIdxWhere (fun m => m.line.sourceFile = fn) merged with
  | none => merged
  | some j =>
    match (S.filter (fun s => s.sourceFile == fn)).getLast? with
    | none => merged
    | some s => updateExtras merged j (extrasOfSummary s)

/-- Model of `pandas.unique` on the summaries' `"Source File"` column: distinct
values in order of first appearance. -/
def pyUniqueAux (seen : List String) : List String → List String
  | [] => []
  | x :: xs => if x ∈ seen then pyUniqueAux seen xs else x :: pyUniqueAux (x :: seen) xs

/-- Distinct values in order of first appearance. -/
def pyUnique (l : List String) : List String :=
  pyUniqueAux [] l

/-- The merge of app.py lines 161-176: start from a copy of the line rows
(no extra cells written), then run the loop over the distinct summary
source files. -/
def mergeTables (L : List LineRecord) (S : List SummaryRecord) : List MergedRecord :=
  (pyUnique (S.map (fun s => s.sourceFile))).foldl (mergeStep S)
    (L.map (fun r => { line := r, extras := none }))

/-! ### The POST route `index` (app.py lines 119-187) -/
/-- One uploaded file, with the text and per-page tables the parsing
collaborator extracts from it (an unextractable document has empty text
and no table rows, app.py lines 25-31 and 36-38). -/
structure UploadedDoc where
  filename : String
  text : String
  tables : List Table
deriving DecidableEq

/-- app.py line 130: `if file and file.filename.lower().endswith(".pdf")`
(a Flask `FileStorage` is falsy exactly when its filename is empty). -/
def isPdfDoc (d : UploadedDoc) : Bool :=
  !(d.filename == "") &&
    listStartsWith ".pdf".toList.reverse (lowerList d.filename.toList).reverse

/-- One file's contribution to `line_items_list` (app.py lines 135-140):
its line-item rows tagged with the filename, or nothing when the
DataFrame is empty. -/
def lineGroupOf (d : UploadedDoc) : Option (List LineRecord) :=
  let items := extract_invoice_line_items d.text d.tables
  if items.isEmpty then none
  else some (items.map (fun hi =>
    ({ header := hi.1, item := hi.2, sourceFile := d.filename } : LineRecord)))

/-- The batch outcome of the POST handler's extraction logic (app.py
lines 121-178): an error page, or the merged table handed to the
spreadsheet writer.  Per-document IO failures (`file.save`, parser
crashes) are outside the model; a failed parse surfaces as empty
text/tables.  `df_summary` is never empty (the summary dict always yields
one row), so every processed PDF contributes a summary. -/
def processBatch (docs : List UploadedDoc) : Except String (List MergedRecord) :=
  if docs.isEmpty || docs.all (fun d => d.filename == "") then
    .error "No files selected"
  else
    let pdfs := docs.filter isPdfDoc
    let lineGroups := pdfs.filterMap lineGroupOf
    let summaries := pdfs.map (fun d => extract_invoice_summary d.text d.filename)
    if lineGroups.isEmpty || summaries.isEmpty then
      .error "Failed to extract data from PDF files"
    else
      .ok (mergeTables lineGroups.flatten summaries)

def hdrX : HeaderFields :=
  { status := "V", submissionDate := "d1", issuanceDate := "d2", internalID := "i",
    issuer := "A", recipients := "B" }

def itemX : ItemFields :=
  { codeName := "c", itemCode := "ic", description := "d", quantityUnitType := "1",
    unitPrice := .num 1, totalSalesAmount := .num 2 }

def sumX (fn : String) (amt : ℚ) : SummaryRecord :=
  { header := hdrX, codeName := "N/A", itemCode := "N/A", description := "N/A",
    quantityUnitType := "N/A", unitPrice := 0, totalSaleAmount := 0, totalSales := 0,
    totalDiscount := 0, totalItemDiscount := 0, valueAddedTax := 0,
    extraInvoiceDiscount := 0, totalAmount := amt, sourceFile := fn }

def lineX (fn : String) : LineRecord := { header := hdrX, item := itemX, sourceFile := fn }

/-! ### Characterising the merge

`attachExtras S done L` is a structural description of the merge state
after the loop has processed the source files in `done`: a row carries the
extra fields exactly when its source file is in `done`, it is the last row
of its group, and a summary for the group exists (the last one supplying
the values).  The loop is proved to transform one such state into the
next, which yields a closed form for `mergeTables`. -/
/-- The extras a merge state assigns to a row `r` followed by the rows
`later`, once the source files in `done` are processed: the last matching
summary's extra fields if `r`'s document was processed and no later row
shares its source file, `none` (NaN) otherwise. -/
def selectedExtras (S : List SummaryRecord) (done : List String) (r : LineRecord)
    (later : List LineRecord) : Option ExtraFields :=
  if r.sourceFile ∈ done ∧ (∀ l ∈ later, l.sourceFile ≠ r.sourceFile) then
    ((S.filter (fun s => s.sourceFile == r.sourceFile)).getLast?).map extrasOfSummary
  else none

def attachExtras (S : List SummaryRecord) (done : List String) : List LineRecord → List MergedRecord
  | [] => []
  | r :: rest =>
    { line := r, extras := selectedExtras S done r rest } :: attachExtras S done rest

/-- Modelled from the spec's words, for comparison with the code's test:
a row is a header iff one of its FIRST THREE cells contains, as a
case-sensitive substring, one of "Code", "Item", "Description". -/
def specHeaderRow (row : Row) : Bool :=
  (row.take 3).any (fun c =>
    match c with
    | some s => (["Code", "Item", "Description"] : List String).any
        (fun m => containsSub m.toList s.toList)
    | none => false)

def row7good : Row := [some "g", some "h", some "k", some "2 / EA", some "3", some "4"]

def row7bad : Row := [some "x", some "y", some "z", some "w", some "abc", some "5"]

def table7 : Table := [row7good, row7bad]

def fields7 : ItemFields :=
  { codeName := "g", itemCode := "h", description := "k", quantityUnitType := "2",
    unitPrice := .num (mkRat 3 1), totalSalesAmount := .num (mkRat 4 1) }

def docW : UploadedDoc := { filename := "a.pdf", text := "", tables := [table7] }

/-! ### Verified properties

The theorems below settle the specified claims; each claim theorem is
accompanied, where needed, by its counterexample and concrete witness. -/

example : clean_numeric_value (.str "1,234.56") = .ok (.num (mkRat 123456 100)) := by decide

example : clean_numeric_value (.str "abc") = .error () := by decide

example : clean_numeric_value (.num 42) = .ok (.num 42) := by decide

example : extract_value "Status: Valid\nMore" "Status" = "Valid" := by decide

example : extract_value "nothing here" "Status" = "N/A" := by decide

example : extract_value "Status " "Status" = "" := by decide

example : extract_value "a | Status — x y | b" "Status" = "x y" := by decide

example : extract_value "Status\nNext" "Status" = "Next" := by decide

example : extract_value "status: low" "Status" = "N/A" := by decide

example : extract_value "Status|x\nStatus: y" "Status" = "y" := by decide

example : extract_value "xStatus= ok" "Status" = "ok" := by decide

example : extract_numeric_value "Total Amount (EGP): 1,234.56" "Total Amount" = mkRat 123456 100 := by decide

example : extract_numeric_value "total amount egp 77" "Total Amount" = 77 := by decide

example : extract_numeric_value "Total Amount: 99" "Total Amount" = 0 := by decide

example : extract_numeric_value "Total Amount (EGP): ,," "Total Amount" = 0 := by decide

example : extract_numeric_value "Total Amount EGP) 12.5 extra" "Total Amount" = mkRat 125 10 := by decide

example :
    extract_table_data
      [[[some "Code Name", some "Item Code", some "Description", some "Q", some "U", some "T"],
        [some "g", some "h", some "k", some "2 / EA", some "3", some "4"],
        [some "x", some "y", some "z", some "w", some "abc", some "5"],
        [some "short", some "s", some "s", some "s", some "5"]]] =
      [{ codeName := "g", itemCode := "h", description := "k", quantityUnitType := "2",
         unitPrice := .num 3, totalSalesAmount := .num 4 }] := by decide

example : extract_table_data [[[some "g", some "h", some "k", some "2", some "3", some "4"]]] = [] := by decide

example : isHeaderRow [some "code", some "a", some "b", some "c", some "1", some "2"] = true := by decide

example : isHeaderRow [none, some "x", some "y", some "z", some "item 5", some "6"] = true := by decide

example : isHeaderRow [some "x", some "y", some "z", some "w", some "8", some "6"] = false := by decide

/-- The name-based column difference picks out exactly the nine
summary-only columns (the casing of `Quantity / Unit type`,
`Unit price (EGP)` and `Total Sale Amount (EGP)` differs from the
line-item columns, so they count as extra). -/
theorem extraColumns_eq :
    extraColumns =
      ["Quantity / Unit type", "Unit price (EGP)", "Total Sale Amount (EGP)", "Total Sales",
       "Total Discount", "Total Item discount", "Value added tax", "Extra invoice discount",
       "Total amount"] := by decide

example :
    (mergeTables [lineX "a", lineX "a", lineX "b"] [sumX "a" 100, sumX "b" 250]).map
      (fun m => (m.line.sourceFile, m.extras.map (fun e => e.totalAmount))) =
    [("a", none), ("a", some 100), ("b", some 250)] := by decide

example :
    (mergeTables [lineX "a"] [sumX "a" 100, sumX "a" 7]).map (fun m => m.extras.map (fun e => e.totalAmount)) =
    [some 7] := by decide

example :
    (mergeTables [lineX "a"] [sumX "c" 9]).map (fun m => m.extras) = [none] := by decide

theorem attachExtras_map_line (S : List SummaryRecord) (done : List String)
    (L : List LineRecord) : (attachExtras S done L).map (fun m => m.line) = L := by
  induction L with
  | nil => rfl
  | cons r rest ih => simp [attachExtras, ih]

theorem attachExtras_nil_done (S : List SummaryRecord) (L : List LineRecord) :
    L.map (fun r => ({ line := r, extras := none } : MergedRecord)) = attachExtras S [] L := by
  induction L with
  | nil => rfl
  | cons r rest ih => simp [attachExtras, selectedExtras, ← ih]

theorem attachExtras_congr (S : List SummaryRecord) (d1 d2 : List String)
    (h : ∀ x, x ∈ d1 ↔ x ∈ d2) (L : List LineRecord) :
    attachExtras S d1 L = attachExtras S d2 L := by
  induction L with
  | nil => rfl
  | cons r rest ih =>
    simp only [attachExtras, selectedExtras, ih, h]

theorem lastIdxWhere_attach (S : List SummaryRecord) (done : List String)
    (L : List LineRecord) (fn : String) :
    lastIdxWhere (fun m => m.line.sourceFile = fn) (attachExtras S done L) =
      lastIdxWhere (fun r => r.sourceFile = fn) L := by
  induction L with
  | nil => rfl
  | cons r rest ih => simp only [attachExtras, lastIdxWhere, ih]

theorem lastIdxWhere_eq_none {α : Type} (p : α → Prop) [DecidablePred p] (l : List α)
    (h : ∀ x ∈ l, ¬ p x) : lastIdxWhere p l = none := by
  induction l with
  | nil => rfl
  | cons x xs ih =>
    simp only [lastIdxWhere, ih (fun y hy => h y (List.mem_cons_of_mem x hy))]
    exact if_neg (h x (List.mem_cons_self x xs))

theorem forall_not_of_lastIdxWhere_none {α : Type} (p : α → Prop) [DecidablePred p]
    (l : List α) (h : lastIdxWhere p l = none) : ∀ x ∈ l, ¬ p x := by
  induction l with
  | nil => intro x hx; exact absurd hx (List.not_mem_nil x)
  | cons y ys ih =>
    intro x hx
    simp only [lastIdxWhere] at h
    cases hys : lastIdxWhere p ys with
    | some j => rw [hys] at h; exact absurd h (by simp)
    | none =>
      rw [hys] at h
      rcases List.mem_cons.mp hx with rfl | hmem
      · intro hp; rw [if_pos hp] at h; exact absurd h (by simp)
      · exact ih hys x hmem

theorem exists_of_lastIdxWhere_some {α : Type} (p : α → Prop) [DecidablePred p]
    (l : List α) (j : ℕ) (h : lastIdxWhere p l = some j) : ∃ x ∈ l, p x := by
  by_contra hnone
  push_neg at hnone
  rw [lastIdxWhere_eq_none p l hnone] at h
  exact absurd h (by simp)

theorem attachExtras_cons_of_no_summary (S : List SummaryRecord) (fn : String)
    (done : List String) (L : List LineRecord)
    (hs : (S.filter (fun s => s.sourceFile == fn)).getLast? = none) :
    attachExtras S (fn :: done) L = attachExtras S done L := by
  induction L with
  | nil => rfl
  | cons r rest ih =>
    simp only [attachExtras, selectedExtras, ih]
    congr 1
    by_cases hr : r.sourceFile = fn
    · have hfil : (S.filter (fun s => s.sourceFile == r.sourceFile)).getLast? = none := by
        rw [hr]; exact hs
      simp [hfil]
    · have hmem : (r.sourceFile ∈ fn :: done) ↔ (r.sourceFile ∈ done) := by
        simp [List.mem_cons, hr]
      simp only [hmem]

theorem attachExtras_cons_of_no_line (S : List SummaryRecord) (fn : String)
    (done : List String) (L : List LineRecord) (h : ∀ x ∈ L, x.sourceFile ≠ fn) :
    attachExtras S (fn :: done) L = attachExtras S done L := by
  induction L with
  | nil => rfl
  | cons r rest ih =>
    simp only [attachExtras, selectedExtras, ih (fun y hy => h y (List.mem_cons_of_mem r hy))]
    have hmem : (r.sourceFile ∈ fn :: done) ↔ (r.sourceFile ∈ done) := by
      simp [List.mem_cons, h r (List.mem_cons_self r rest)]
    simp only [hmem]

theorem mergeStep_attach (S : List SummaryRecord) (fn : String) (done : List String) :
    ∀ L : List LineRecord,
      mergeStep S (attachExtras S done L) fn = attachExtras S (fn :: done) L := by
  intro L
  induction L with
  | nil => rfl
  | cons r rest ih =>
    simp only [attachExtras, selectedExtras]
    simp only [mergeStep, lastIdxWhere, lastIdxWhere_attach]
    cases hrest : lastIdxWhere (fun l => l.sourceFile = fn) rest with
    | none =>
      have hnone : ∀ x ∈ rest, x.sourceFile ≠ fn :=
        forall_not_of_lastIdxWhere_none _ rest hrest
      by_cases hr : r.sourceFile = fn
      · rw [if_pos hr]
        cases hs : (S.filter (fun s => s.sourceFile == fn)).getLast? with
        | none =>
          simp only [attachExtras_cons_of_no_line S fn done rest hnone]
          have hfil : (S.filter (fun s => s.sourceFile == r.sourceFile)).getLast? = none := by
            rw [hr]; exact hs
          simp [hfil]
        | some s0 =>
          simp only [updateExtras, attachExtras_cons_of_no_line S fn done rest hnone]
          have hcond : r.sourceFile ∈ fn :: done ∧ ∀ l ∈ rest, l.sourceFile ≠ r.sourceFile :=
            ⟨by simp [hr], fun l hl => by rw [hr]; exact hnone l hl⟩
          have hfil : (S.filter (fun s => s.sourceFile == r.sourceFile)).getLast? = some s0 := by
            rw [hr]; exact hs
          rw [if_pos hcond, hfil]
          simp
      · rw [if_neg hr]
        simp only [attachExtras_cons_of_no_line S fn done rest hnone]
        have hmem : (r.sourceFile ∈ fn :: done) ↔ (r.sourceFile ∈ done) := by
          simp [List.mem_cons, hr]
        simp only [hmem]
    | some j =>
      obtain ⟨l0, hl0, hl0fn⟩ := exists_of_lastIdxWhere_some _ rest j hrest
      have hnotall : ¬ (∀ l ∈ rest, l.sourceFile ≠ r.sourceFile) ∨ r.sourceFile ≠ fn := by
        by_cases hr : r.sourceFile = fn
        · exact Or.inl (fun hall => hall l0 hl0 (by rw [hl0fn, hr]))
        · exact Or.inr hr
      cases hs : (S.filter (fun s => s.sourceFile == fn)).getLast? with
      | none =>
        simp only [attachExtras_cons_of_no_summary S fn done rest hs]
        by_cases hr : r.sourceFile = fn
        · have hfil : (S.filter (fun s => s.sourceFile == r.sourceFile)).getLast? = none := by
            rw [hr]; exact hs
          simp [hfil]
        · have hmem : (r.sourceFile ∈ fn :: done) ↔ (r.sourceFile ∈ done) := by
            simp [List.mem_cons, hr]
          simp only [hmem]
      | some s0 =>
        simp only [updateExtras]
        have ih' : updateExtras (attachExtras S done rest) j (extrasOfSummary s0) =
            attachExtras S (fn :: done) rest := by
          have h2 := ih
          simp only [mergeStep, lastIdxWhere_attach, hrest, hs] at h2
          exact h2
        rw [ih']
        congr 1
        by_cases hr : r.sourceFile = fn
        · have hfalse : ¬ (∀ l ∈ rest, l.sourceFile ≠ r.sourceFile) :=
            fun hall => hall l0 hl0 (by rw [hl0fn, hr])
          rw [if_neg (fun hc => hfalse hc.2), if_neg (fun hc => hfalse hc.2)]
        · have hmem : (r.sourceFile ∈ fn :: done) ↔ (r.sourceFile ∈ done) := by
            simp [List.mem_cons, hr]
          simp only [hmem]

theorem foldl_mergeStep_attach (S : List SummaryRecord) (L : List LineRecord)
    (fns : List String) : ∀ done : List String,
    fns.foldl (mergeStep S) (attachExtras S done L) =
      attachExtras S (fns.reverse ++ done) L := by
  induction fns with
  | nil => intro done; simp
  | cons f fns' ih =>
    intro done
    rw [List.foldl_cons, mergeStep_attach S f done L, ih (f :: done),
      List.reverse_cons, List.append_assoc]
    rfl

theorem pyUniqueAux_mem (x : String) : ∀ (l seen : List String),
    x ∈ pyUniqueAux seen l ↔ (x ∈ l ∧ x ∉ seen) := by
  intro l
  induction l with
  | nil => intro seen; simp [pyUniqueAux]
  | cons y ys ih =>
    intro seen
    by_cases hy : y ∈ seen
    · rw [pyUniqueAux, if_pos hy, ih seen]
      constructor
      · rintro ⟨h1, h2⟩; exact ⟨List.mem_cons_of_mem y h1, h2⟩
      · rintro ⟨h1, h2⟩
        rcases List.mem_cons.mp h1 with rfl | hmem
        · exact absurd hy h2
        · exact ⟨hmem, h2⟩
    · rw [pyUniqueAux, if_neg hy]
      by_cases hxy : x = y
      · subst hxy; simp [hy]
      · simp [List.mem_cons, hxy, ih (y :: seen)]

theorem pyUnique_mem_iff (x : String) (l : List String) : x ∈ pyUnique l ↔ x ∈ l := by
  simp [pyUnique, pyUniqueAux_mem]

/-- The merge in closed form: `mergeTables` is `attachExtras` with the set
of summary source files. -/
theorem mergeTables_eq_attach (L : List LineRecord) (S : List SummaryRecord) :
    mergeTables L S = attachExtras S (S.map (fun s => s.sourceFile)) L := by
  unfold mergeTables
  rw [attachExtras_nil_done S L,
    foldl_mergeStep_attach S L (pyUnique (S.map (fun s => s.sourceFile))) []]
  exact attachExtras_congr S _ _ (fun x => by simp [pyUnique_mem_iff]) L

/-- Row-level description of `attachExtras`. -/
theorem attachExtras_get? (S : List SummaryRecord) (done : List String)
    (L : List LineRecord) : ∀ j : ℕ,
    (attachExtras S done L).get? j =
      (L.get? j).map (fun (r : LineRecord) =>
        ({ line := r, extras := selectedExtras S done r (L.drop (j + 1)) } : MergedRecord)) := by
  induction L with
  | nil => intro j; simp [attachExtras]
  | cons r rest ih =>
    intro j
    cases j with
    | zero =>
      simp only [attachExtras, List.get?_cons_zero, Option.map_some', List.drop_succ_cons,
        List.drop_zero]
    | succ j' =>
      simp only [attachExtras, List.get?_cons_succ, List.drop_succ_cons]
      exact ih j'

theorem mergeTables_map_line (L : List LineRecord) (S : List SummaryRecord) :
    (mergeTables L S).map (fun m => m.line) = L := by
  rw [mergeTables_eq_attach]
  exact attachExtras_map_line S _ L

theorem mergeTables_get? (L : List LineRecord) (S : List SummaryRecord) (j : ℕ) :
    (mergeTables L S).get? j =
      (L.get? j).map (fun (r : LineRecord) =>
        ({ line := r,
           extras := selectedExtras S (S.map (fun s => s.sourceFile)) r (L.drop (j + 1)) } :
          MergedRecord)) := by
  rw [mergeTables_eq_attach]
  exact attachExtras_get? S _ L j

/-- C6: DocumentMerger's output contains exactly the input line-item
records, in their original concatenated order, with no reordering and no
deduplication — every field that already existed on a line item is
unchanged by the merge (the merge only writes the nine extra columns), and
each document contributes exactly as many output rows as it had line
items. -/
theorem merger_is_frame_preserving (L : List LineRecord) (S : List SummaryRecord) :
    (mergeTables L S).map (fun m => m.line) = L ∧
    (mergeTables L S).length = L.length ∧
    (∀ fn : String,
      ((mergeTables L S).filter (fun m => m.line.sourceFile == fn)).length =
        (L.filter (fun r => r.sourceFile == fn)).length) := by
  refine ⟨mergeTables_map_line L S, ?_, ?_⟩
  · have h := congrArg List.length (mergeTables_map_line L S)
    simpa using h
  · intro fn
    conv_rhs => rw [← mergeTables_map_line L S]
    rw [← List.countP_eq_length_filter, ← List.countP_eq_length_filter, List.countP_map]
    rfl

/-- C2: for every distinct SourceDocumentID among the summaries: if no
line item carries that ID, the document's summary is discarded — it
produces no merged row (all merged rows are line items of other
documents); otherwise the extra fields are set, with the last summary's
values for that ID, on exactly the row that is the last of that ID's
group in the concatenated sequence, and on no other row of the group. -/
theorem merger_per_document (L : List LineRecord) (S : List SummaryRecord) (fn : String)
    (hfn : fn ∈ S.map (fun s => s.sourceFile)) :
    ((∀ r ∈ L, r.sourceFile ≠ fn) → ∀ m ∈ mergeTables L S, m.line.sourceFile ≠ fn) ∧
    (∀ (j : ℕ) (r : LineRecord), L.get? j = some r → r.sourceFile = fn →
      ((∀ l ∈ L.drop (j + 1), l.sourceFile ≠ fn) →
        (mergeTables L S).get? j =
          some { line := r,
                 extras :=
                   ((S.filter (fun s => s.sourceFile == fn)).getLast?).map extrasOfSummary }) ∧
      ((∃ l ∈ L.drop (j + 1), l.sourceFile = fn) →
        (mergeTables L S).get? j = some { line := r, extras := none })) := by
  constructor
  · intro h m hm
    have hline : m.line ∈ (mergeTables L S).map (fun m => m.line) :=
      List.mem_map_of_mem (fun m => m.line) hm
    rw [mergeTables_map_line L S] at hline
    exact h m.line hline
  · intro j r hj hr
    constructor
    · intro hlast
      rw [mergeTables_get? L S j, hj]
      simp only [Option.map_some', selectedExtras, hr]
      rw [if_pos ⟨hfn, hlast⟩]
    · rintro ⟨l0, hl0, hl0fn⟩
      rw [mergeTables_get? L S j, hj]
      have hcond : ¬ (r.sourceFile ∈ S.map (fun s => s.sourceFile) ∧
          ∀ l ∈ L.drop (j + 1), l.sourceFile ≠ r.sourceFile) := by
        rintro ⟨-, hall⟩
        exact hall l0 hl0 (by rw [hl0fn, hr])
      simp only [Option.map_some', selectedExtras, if_neg hcond]

/-- C3(counterexample): the claim says a numeric extra field such as
TotalAmount holds 0.0 on non-selected rows.  With two line items of one
document and a summary with TotalAmount 100, the merged first (non-
selected) row holds NO value in the extra columns — the cell is NaN,
rendered blank (`none` in the model) — which is not the number 0.0. -/
theorem merger_non_selected_totalAmount_is_blank :
    (mergeTables [lineX "a", lineX "a"] [sumX "a" 100]).map
        (fun m => m.extras.map (fun e => e.totalAmount)) = [none, some 100] ∧
      (none : Option ℚ) ≠ some 0 := by
  exact ⟨by decide, by decide⟩

/-- C3(amended): after the merge, every merged record that is not the
selected last line item of its document (another row of the same document
follows it, or its document has no summary) has its extra fields left
unset — the cells hold NaN and are written as blanks, not as the extra
field types' default values such as 0.0. -/
theorem merger_leaves_extras_unset_on_non_selected (L : List LineRecord)
    (S : List SummaryRecord) (j : ℕ) (r : LineRecord) (hj : L.get? j = some r)
    (hns : (∃ l ∈ L.drop (j + 1), l.sourceFile = r.sourceFile) ∨
      r.sourceFile ∉ S.map (fun s => s.sourceFile)) :
    (mergeTables L S).get? j = some { line := r, extras := none } := by
  rw [mergeTables_get? L S j, hj]
  have hcond : ¬ (r.sourceFile ∈ S.map (fun s => s.sourceFile) ∧
      ∀ l ∈ L.drop (j + 1), l.sourceFile ≠ r.sourceFile) := by
    rintro ⟨hmem, hall⟩
    rcases hns with ⟨l0, hl0, hl0fn⟩ | hnomem
    · exact hall l0 hl0 hl0fn
    · exact hnomem hmem
  simp only [Option.map_some', selectedExtras, if_neg hcond]

/-- C3(witness): the amended statement applied to the concrete two-row
document of the counterexample. -/
theorem merger_leaves_extras_unset_on_non_selected_witness :
    ([lineX "a", lineX "a"].get? 0 = some (lineX "a")) ∧
    (∃ l ∈ [lineX "a", lineX "a"].drop 1, l.sourceFile = (lineX "a").sourceFile) ∧
    (mergeTables [lineX "a", lineX "a"] [sumX "a" 100]).get? 0 =
      some { line := lineX "a", extras := none } :=
  ⟨by decide, by decide,
    merger_leaves_extras_unset_on_non_selected [lineX "a", lineX "a"] [sumX "a" 100] 0
      (lineX "a") (by decide) (Or.inl (by decide))⟩

/-- C2(witness): the per-document merge statement applied to a concrete
batch of two documents, three line items and two summaries. -/
theorem merger_per_document_witness :
    ("a" ∈ ([sumX "a" 100, sumX "b" 250].map (fun s => s.sourceFile))) ∧
    (mergeTables [lineX "a", lineX "a", lineX "b"] [sumX "a" 100, sumX "b" 250]).get? 1 =
      some { line := lineX "a", extras := some (extrasOfSummary (sumX "a" 100)) } := by
  refine ⟨by decide, ?_⟩
  have h :=
    ((merger_per_document [lineX "a", lineX "a", lineX "b"] [sumX "a" 100, sumX "b" 250] "a"
        (by decide)).2 1 (lineX "a") (by decide) (by decide)).1 (by decide)
  exact h.trans (by decide)

/-- C1(counterexample): `clean_numeric_value("abc")` does not return 0.0 —
the function has no exception handler, `float("")` raises, and the
`ValueError` escapes to the caller (modelled as `Except.error ()`). -/
theorem numeric_normalizer_raises_on_abc :
    clean_numeric_value (.str "abc") = .error () ∧
      clean_numeric_value (.str "abc") ≠ .ok (.num 0) := by
  exact ⟨by decide, by decide⟩

/-- C1(amended): for a string input, `clean_numeric_value` removes commas
and every character that is not a digit or a decimal point; if the cleaned
string parses as a float it returns that number, but if the cleaned string
is empty or unparseable it RAISES — the `ValueError` escapes to the
caller (which, in the table extractor, drops the row).  Any non-string
input is returned unchanged. -/
theorem numeric_normalizer_spec (v : PyVal) :
    ((∀ s : String, v = .str s →
        (parsePyFloat (pyCleanNumericL s.toList) = none →
          clean_numeric_value v = .error ()) ∧
        (∀ q : ℚ, parsePyFloat (pyCleanNumericL s.toList) = some q →
          clean_numeric_value v = .ok (.num q))) ∧
      ((∀ s : String, v ≠ .str s) → clean_numeric_value v = .ok v)) := by
  constructor
  · rintro s rfl
    constructor
    · intro hnone
      simp only [clean_numeric_value]
      rw [hnone]
    · intro q hq
      simp only [clean_numeric_value]
      rw [hq]
  · intro hnotstr
    cases v with
    | str s => exact absurd rfl (hnotstr s)
    | num q => rfl
    | noneV => rfl

/-- C1(witness): the characterisation applied to the parseable string
`"1,234.56"` and to the float input 42 (pass-through). -/
theorem numeric_normalizer_spec_witness :
    (parsePyFloat (pyCleanNumericL "1,234.56".toList) = some (mkRat 123456 100)) ∧
    clean_numeric_value (.str "1,234.56") = .ok (.num (mkRat 123456 100)) ∧
    clean_numeric_value (.num 42) = .ok (.num 42) :=
  ⟨by decide,
    ((numeric_normalizer_spec (.str "1,234.56")).1 "1,234.56" rfl).2 (mkRat 123456 100)
      (by decide),
    (numeric_normalizer_spec (.num 42)).2 (fun s h => PyVal.noConfusion h)⟩

/-! ### C4 — the header-row test -/
theorem listStartsWith_append (p : List Char) : ∀ (s y : List Char),
    listStartsWith p s = true → listStartsWith p (s ++ y) = true := by
  induction p with
  | nil => intro s y _; rfl
  | cons a ps ih =>
    intro s y h
    cases s with
    | nil => exact absurd h (by simp [listStartsWith])
    | cons c cs =>
      simp only [listStartsWith, Bool.and_eq_true] at h
      simp only [List.cons_append, listStartsWith, Bool.and_eq_true]
      exact ⟨h.1, ih cs y h.2⟩

theorem containsSub_nil_right (pat : List Char) (y : List Char)
    (h : containsSub pat [] = true) : containsSub pat y = true := by
  have hp : pat = [] := by
    cases pat with
    | nil => rfl
    | cons a ps => exact absurd h (by simp [containsSub, listStartsWith])
  subst hp
  cases y with
  | nil => rfl
  | cons c cs => simp [containsSub, listStartsWith]

theorem containsSub_append_left (pat : List Char) : ∀ (x l : List Char),
    containsSub pat l = true → containsSub pat (x ++ l) = true := by
  intro x
  induction x with
  | nil => intro l h; exact h
  | cons c cs ih =>
    intro l h
    simp only [List.cons_append, containsSub, Bool.or_eq_true]
    exact Or.inr (ih l h)

theorem containsSub_append_right (pat : List Char) : ∀ (l y : List Char),
    containsSub pat l = true → containsSub pat (l ++ y) = true := by
  intro l
  induction l with
  | nil => intro y h; exact containsSub_nil_right pat y h
  | cons c cs ih =>
    intro y h
    simp only [containsSub, Bool.or_eq_true] at h
    simp only [List.cons_append, containsSub, Bool.or_eq_true]
    rcases h with h | h
    · exact Or.inl (listStartsWith_append pat (c :: cs) y h)
    · exact Or.inr (ih y h)

theorem containsSub_of_infix (pat l pre post : List Char)
    (h : containsSub pat l = true) :
    containsSub pat (pre ++ l ++ post) = true := by
  rw [List.append_assoc]
  exact containsSub_append_left pat pre (l ++ post) (containsSub_append_right pat l post h)

/-- Every cell's `repr` occurs contiguously in the joined cell list. -/
theorem cell_repr_infix : ∀ (row : Row) (c : Option String), c ∈ row →
    ∃ pre post, joinCells row = pre ++ pyReprCellL c ++ post := by
  intro row
  induction row with
  | nil => intro c hc; exact absurd hc (List.not_mem_nil c)
  | cons x rest ih =>
    intro c hc
    cases rest with
    | nil =>
      rcases List.mem_cons.mp hc with rfl | hmem
      · exact ⟨[], [], by simp [joinCells]⟩
      · exact absurd hmem (List.not_mem_nil c)
    | cons y rest' =>
      rcases List.mem_cons.mp hc with rfl | hmem
      · exact ⟨[], ',' :: ' ' :: joinCells (y :: rest'), by simp [joinCells]⟩
      · obtain ⟨pre', post', hpp⟩ := ih c hmem
        refine ⟨pyReprCellL x ++ ',' :: ' ' :: pre', post', ?_⟩
        simp [joinCells, hpp]

/-- A case-insensitive marker occurrence inside any cell makes the row-level
test fire: the marker then occurs in the lowercased `str(row)`. -/
theorem isHeaderRow_of_cell_marker (row : Row) (s m : String) (hc : some s ∈ row)
    (hm : m ∈ (["code", "item", "description"] : List String))
    (hsub : containsSub m.toList (lowerList s.toList) = true) :
    isHeaderRow row = true := by
  obtain ⟨pre, post, hpp⟩ := cell_repr_infix row (some s) hc
  have hcell : containsSub m.toList (lowerList (pyReprCellL (some s))) = true := by
    simp only [pyReprCellL, lowerList, List.map_cons, List.map_append]
    exact containsSub_of_infix m.toList (List.map Char.toLower s.toList)
      [Char.toLower squote] (List.map Char.toLower [squote])
      (by simpa [lowerList] using hsub)
  have hrow : containsSub m.toList (lowerList (pyReprRowL row)) = true := by
    have h2 := containsSub_of_infix m.toList (List.map Char.toLower (pyReprCellL (some s)))
      (Char.toLower '[' :: List.map Char.toLower pre)
      (List.map Char.toLower post ++ [Char.toLower ']'])
      (by simpa [lowerList] using hcell)
    simp only [pyReprRowL, hpp, lowerList, List.map_cons, List.map_append]
    simpa [List.cons_append, List.append_assoc] using h2
  simp only [isHeaderRow, List.any_eq_true]
  exact ⟨m, hm, hrow⟩

/-- C4(counterexample): the row `["code", "a", "b", "c", "1", "2"]` is not
a header by the spec's rule (no first-three-cells case-sensitive marker),
has 6 cells and maps successfully, so the claim includes it; the code
lowercases `str(row)` and rejects it, so a table holding it (after a
non-header row, so the table is processed) contributes only the other
row. -/
theorem header_rejection_counterexample :
    isHeaderRow [some "code", some "a", some "b", some "c", some "1", some "2"] = true ∧
    specHeaderRow [some "code", some "a", some "b", some "c", some "1", some "2"] = false ∧
    mapRow [some "code", some "a", some "b", some "c", some "1", some "2"] ≠ none ∧
    extract_table_data
        [[[some "x", some "y", some "z", some "w", some "8", some "6"],
          [some "code", some "a", some "b", some "c", some "1", some "2"]]] =
      [{ codeName := "x", itemCode := "y", description := "z", quantityUnitType := "w",
         unitPrice := .num (mkRat 8 1), totalSalesAmount := .num (mkRat 6 1) }] := by
  exact ⟨by decide, by decide, by decide, by decide⟩

/-- C4(amended): TableRowExtractor rejects a raw table row as a header row
iff one of the lowercase markers "code", "item", "description" occurs in
the lowercased Python string rendering of the WHOLE row; consequently any
cell, in any position, containing a marker case-insensitively causes
rejection; in particular every row whose first cell is "Item Code" is
rejected, and a rejected row is never mapped. -/
theorem header_rejection_spec (row : Row) :
    (isHeaderRow row = true ↔
      ∃ m ∈ (["code", "item", "description"] : List String),
        containsSub m.toList (lowerList (pyReprRowL row)) = true) ∧
    (∀ s m : String, some s ∈ row → m ∈ (["code", "item", "description"] : List String) →
      containsSub m.toList (lowerList s.toList) = true → isHeaderRow row = true) ∧
    (∀ rest : List (Option String), isHeaderRow (some "Item Code" :: rest) = true) ∧
    (isHeaderRow row = true → processRow row = none) := by
  refine ⟨?_, ?_, ?_, ?_⟩
  · simp [isHeaderRow, List.any_eq_true]
  · exact fun s m => isHeaderRow_of_cell_marker row s m
  · intro rest
    exact isHeaderRow_of_cell_marker (some "Item Code" :: rest) "Item Code" "item"
      (List.mem_cons_self _ rest) (by decide) (by decide)
  · intro h
    simp [processRow, h]

/-- C4(witness): a marker in the FIFTH cell, in different case
("item 5"), rejects the row, contradicting nothing in the amended claim. -/
theorem header_rejection_spec_witness :
    (containsSub "item".toList (lowerList "item 5".toList) = true) ∧
    isHeaderRow [some "x", some "y", some "z", some "w", some "item 5", some "6"] = true ∧
    processRow [some "x", some "y", some "z", some "w", some "item 5", some "6"] = none := by
  have h := header_rejection_spec [some "x", some "y", some "z", some "w", some "item 5", some "6"]
  have hh := h.2.1 "item 5" "item" (by decide) (by decide) (by decide)
  exact ⟨by decide, hh, h.2.2.2 hh⟩

/-! ### C7 / C9 — row filtering and the one-row-table guard -/
/-- C7: within a processed table (more than one row), every non-header row
with fewer than 6 cells is rejected, every non-header row with at least 6
cells whose field mapping succeeds contributes its fields to the output,
and the whole extraction is a per-row `filterMap` — a mapping error drops
only its own row and never aborts the document. -/
theorem table_row_filtering (t : Table) (row : Row) (hlen : 1 < t.length) (hmem : row ∈ t) :
    (extract_table_data [t] = t.filterMap processRow) ∧
    (isHeaderRow row = false → row.length < 6 → processRow row = none) ∧
    (∀ f : ItemFields, isHeaderRow row = false → 6 ≤ row.length → mapRow row = some f →
      f ∈ extract_table_data [t]) := by
  have he : extract_table_data [t] = t.filterMap processRow := by
    simp [extract_table_data, hlen]
  refine ⟨he, ?_, ?_⟩
  · intro hh hlt
    simp only [processRow]
    rw [if_neg (by simp [hh]), if_neg (by omega)]
  · intro f hh hge hmap
    rw [he]
    refine List.mem_filterMap.mpr ⟨row, hmem, ?_⟩
    simp only [processRow]
    rw [if_neg (by simp [hh]), if_pos hge]
    exact hmap

/-- C7(witness): a concrete two-row table whose second row's numeric cell
("abc") makes `clean_numeric_value` raise; the first row is still
extracted and the bad row alone is dropped. -/
theorem table_row_filtering_witness :
    (1 < table7.length) ∧ row7good ∈ table7 ∧ isHeaderRow row7good = false ∧
    6 ≤ row7good.length ∧ mapRow row7good = some fields7 ∧
    mapRow row7bad = none ∧
    fields7 ∈ extract_table_data [table7] ∧ extract_table_data [table7] = [fields7] := by
  have h := table_row_filtering table7 row7good (by decide) (by decide)
  exact ⟨by decide, by decide, by decide, by decide, by decide, by decide,
    h.2.2 fields7 (by decide) (by decide) (by decide), by decide⟩

/-- C9: a page whose extracted table has at most one row (`len(table) > 1`
fails) contributes no line items at all, whatever the rows hold. -/
theorem single_row_table_contributes_nothing (pre post : List Table) (t : Table)
    (h : t.length ≤ 1) :
    extract_table_data (pre ++ t :: post) = extract_table_data (pre ++ post) := by
  simp only [extract_table_data, List.map_append, List.map_cons, List.flatten_append,
    List.flatten_cons]
  rw [if_neg (by omega)]
  rfl

/-- C9(witness): a single-row table whose one row is a valid, mappable,
non-header row still contributes nothing. -/
theorem single_row_table_contributes_nothing_witness :
    (([row7good] : Table).length ≤ 1) ∧ isHeaderRow row7good = false ∧
    mapRow row7good = some fields7 ∧
    extract_table_data [([row7good] : Table)] = extract_table_data [] := by
  exact ⟨by decide, by decide, by decide,
    single_row_table_contributes_nothing [] [] [row7good] (by decide)⟩

/-! ### C5 — TextFieldExtractor -/
theorem searchValue_nil (kw : List Char) : searchValue kw [] = none := by
  cases kw with
  | nil => decide
  | cons c cs => rfl

/-- No keyword occurrence means no match: the pattern starts with the
literal keyword, so `re.search` fails. -/
theorem searchValue_none_of_not_contains (kw : List Char) : ∀ s : List Char,
    containsSub kw s = false → searchValue kw s = none := by
  intro s
  induction s with
  | nil =>
    intro h
    exact searchValue_nil kw
  | cons c cs ih =>
    intro h
    simp only [containsSub, Bool.or_eq_false_iff] at h
    simp only [searchValue, h.1, Bool.false_eq_true, if_false]
    exact ih h.2

theorem tryDesc_some {α : Type} (f : ℕ → Option α) (P : α → Prop)
    (hf : ∀ n x, f n = some x → P x) : ∀ (k : ℕ) (x : α), tryDesc f k = some x → P x := by
  intro k
  induction k with
  | zero => intro x h; exact hf 0 x h
  | succ n ih =>
    intro x h
    simp only [tryDesc] at h
    cases hfn : f (n + 1) with
    | some y => rw [hfn] at h; cases h; exact hf (n + 1) x hfn
    | none => rw [hfn] at h; exact ih x h

/-- The captured group is non-empty and contains neither newline nor
pipe (`([^\n|]+)`). -/
theorem valCapture_prop (cs cap : List Char) (h : valCapture cs = some cap) :
    cap ≠ [] ∧ ∀ c ∈ cap, c ≠ '\n' ∧ c ≠ '|' := by
  simp only [valCapture] at h
  by_cases he : (cs.takeWhile (fun c => !(c == '\n') && !(c == '|'))).isEmpty
  · rw [if_pos he] at h; exact absurd h (by simp)
  · rw [if_neg he] at h
    cases h
    refine ⟨fun hnil => he (by simp [hnil]), fun c hc => ?_⟩
    have hp := List.mem_takeWhile_imp hc
    simp only [Bool.and_eq_true, Bool.not_eq_true', beq_eq_false_iff_ne] at hp
    exact hp

theorem valAfterSep_prop (cs cap : List Char) (h : valAfterSep cs = some cap) :
    cap ≠ [] ∧ ∀ c ∈ cap, c ≠ '\n' ∧ c ≠ '|' := by
  exact tryDesc_some _ _ (fun b x hb => valCapture_prop _ x hb) _ cap h

theorem valSep_prop (cs cap : List Char) (h : valSep cs = some cap) :
    cap ≠ [] ∧ ∀ c ∈ cap, c ≠ '\n' ∧ c ≠ '|' := by
  cases cs with
  | nil => exact valAfterSep_prop [] cap h
  | cons c rest =>
    simp only [valSep] at h
    by_cases hc : (c == ':' || c == '—' || c == '=') = true
    · rw [if_pos hc] at h
      cases h2 : valAfterSep rest with
      | some cap2 => rw [h2] at h; cases h; exact valAfterSep_prop rest cap h2
      | none => rw [h2] at h; exact valAfterSep_prop (c :: rest) cap h
    · rw [if_neg hc] at h
      exact valAfterSep_prop (c :: rest) cap h

theorem matchValueAt_prop (cs cap : List Char) (h : matchValueAt cs = some cap) :
    cap ≠ [] ∧ ∀ c ∈ cap, c ≠ '\n' ∧ c ≠ '|' := by
  exact tryDesc_some _ _ (fun a x ha => valSep_prop _ x ha) _ cap h

theorem searchValue_prop (kw : List Char) : ∀ (s cap : List Char),
    searchValue kw s = some cap → cap ≠ [] ∧ ∀ c ∈ cap, c ≠ '\n' ∧ c ≠ '|' := by
  intro s
  induction s with
  | nil =>
    intro cap h
    rw [searchValue_nil] at h
    exact absurd h (by simp)
  | cons c cs ih =>
    intro cap h
    simp only [searchValue] at h
    by_cases hsw : listStartsWith kw (c :: cs) = true
    · rw [if_pos hsw] at h
      cases hm : matchValueAt ((c :: cs).drop kw.length) with
      | some cap2 => rw [hm] at h; cases h; exact matchValueAt_prop _ cap hm
      | none => rw [hm] at h; exact ih cap h
    · rw [if_neg hsw] at h
      exact ih cap h

/-- C5(counterexample): on the text `"Status "` the keyword is found and
the regex still matches — backtracking lets `\s*` leave one space for the
capture group — so the function returns the stripped capture `""`, not the
sentinel `"N/A"` that the claim requires for an empty trimmed capture. -/
theorem extract_value_counterexample :
    extract_value "Status " "Status" = "" ∧ ("" : String) ≠ "N/A" := by
  exact ⟨by decide, by decide⟩

/-- C5(amended): TextFieldExtractor returns "N/A" exactly when the text is
empty or the whole pattern finds no match — in particular whenever the
keyword (matched case-sensitively, as a literal) does not occur in the
text.  When a match exists it returns the captured run — which contains
neither newline nor pipe — trimmed of whitespace; since the capture can
consist of blanks, the result can be the empty string rather than
"N/A". -/
theorem extract_value_spec (text keyword : String) :
    (containsSub keyword.toList text.toList = false → extract_value text keyword = "N/A") ∧
    (∀ cap : List Char, searchValue keyword.toList text.toList = some cap →
      extract_value text keyword = String.mk (pyStripL cap) ∧ cap ≠ [] ∧
        ∀ c ∈ cap, c ≠ '\n' ∧ c ≠ '|') ∧
    (searchValue keyword.toList text.toList = none → extract_value text keyword = "N/A") := by
  refine ⟨?_, ?_, ?_⟩
  · intro h
    simp only [extract_value]
    by_cases ht : (text == "") = true
    · rw [if_pos ht]
    · rw [if_neg ht, searchValue_none_of_not_contains keyword.toList text.toList h]
  · intro cap h
    have htext : ¬ ((text == "") = true) := by
      intro he
      rw [beq_iff_eq] at he
      subst he
      have h2 : searchValue keyword.toList [] = some cap := h
      rw [searchValue_nil] at h2
      exact absurd h2 (by simp)
    refine ⟨?_, searchValue_prop keyword.toList text.toList cap h⟩
    simp only [extract_value]
    rw [if_neg htext, h]
  · intro h
    simp only [extract_value]
    by_cases ht : (text == "") = true
    · rw [if_pos ht]
    · rw [if_neg ht, h]

/-- C5(witness): the amended statement at a missing keyword (→ "N/A") and
at a present keyword with separator (→ trimmed trailing value). -/
theorem extract_value_spec_witness :
    (containsSub "Status".toList "no keyword here".toList = false) ∧
    extract_value "no keyword here" "Status" = "N/A" ∧
    (searchValue "Status".toList "Status: OK".toList = some ['O', 'K']) ∧
    extract_value "Status: OK" "Status" = "OK" := by
  have h1 := (extract_value_spec "no keyword here" "Status").1 (by decide)
  have h2 := ((extract_value_spec "Status: OK" "Status").2.1 ['O', 'K'] (by decide)).1
  exact ⟨by decide, h1, by decide, h2.trans (by decide)⟩

/-! ### C10 — Issuer vs Recipients -/
theorem pySplitFuel_of_not_contains (p : Char) (ps : List Char) : ∀ (fuel : ℕ)
    (acc s : List Char), s.length ≤ fuel → containsSub (p :: ps) s = false →
    pySplitFuel p ps fuel acc s = [acc.reverse ++ s] := by
  intro fuel
  induction fuel with
  | zero =>
    intro acc s hlen _
    have hs : s = [] := List.length_eq_zero.mp (Nat.le_zero.mp hlen)
    subst hs
    simp [pySplitFuel]
  | succ n ih =>
    intro acc s hlen hc
    cases s with
    | nil => simp [pySplitFuel]
    | cons c cs =>
      simp only [containsSub, Bool.or_eq_false_iff] at hc
      simp only [pySplitFuel, hc.1, Bool.false_eq_true, if_false]
      rw [ih (c :: acc) cs (by simp only [List.length_cons] at hlen; omega) hc.2]
      simp

/-- Splitting is trivial without the separator: `text.split(sep)` is `[text]` when `sep` does not occur in `text`. -/
theorem pySplitStr_of_not_contains (s sep : String)
    (h : containsSub sep.toList s.toList = false) : pySplitStr s sep = [s] := by
  simp only [pySplitStr]
  cases hsep : sep.toList with
  | nil => rfl
  | cons p ps =>
    show List.map String.mk (pySplitFuel p ps s.toList.length [] s.toList) = [s]
    rw [pySplitFuel_of_not_contains p ps s.toList.length [] s.toList (Nat.le_refl _)
      (hsep ▸ h)]
    rfl

theorem splitRecipientsLast_of_not_contains (text : String)
    (h : containsSub "Recipients".toList text.toList = false) :
    splitRecipientsLast text = text := by
  simp [splitRecipientsLast, pySplitStr_of_not_contains text "Recipients" h]

/-- C10(counterexample): the raw text
`"Taxpayer Name: A\nReci|pients\nTaxpayer Name: B"` does not contain
"Recipients", and LineItemBuilder indeed extracts Recipients = Issuer =
"A"; but DocumentSummaryBuilder first deletes the pipe, which CREATES a
"Recipients" occurrence, so its split takes the trailing segment and its
Recipients is "B" while its Issuer is "A". -/
theorem summary_recipients_counterexample :
    (containsSub "Recipients".toList "Taxpayer Name: A\nReci|pients\nTaxpayer Name: B".toList
      = false) ∧
    (extract_base_data "Taxpayer Name: A\nReci|pients\nTaxpayer Name: B").issuer = "A" ∧
    (extract_base_data "Taxpayer Name: A\nReci|pients\nTaxpayer Name: B").recipients = "A" ∧
    (extract_invoice_summary "Taxpayer Name: A\nReci|pients\nTaxpayer Name: B"
      "f.pdf").header.issuer = "A" ∧
    (extract_invoice_summary "Taxpayer Name: A\nReci|pients\nTaxpayer Name: B"
      "f.pdf").header.recipients = "B" ∧
    ("A" : String) ≠ "B" := by
  exact ⟨by decide, by decide, by decide, by decide, by decide, by decide⟩

/-- C10(amended): when the RAW text does not contain "Recipients",
LineItemBuilder's Recipients equals its Issuer; when the NORMALISED text
(pipes removed, dashes replaced) does not contain "Recipients",
DocumentSummaryBuilder's Recipients equals its Issuer.  (The raw-text
condition does not suffice for the summary builder: deleting pipes can
create an occurrence.) -/
theorem recipients_equals_issuer_when_absent (text src : String) :
    (containsSub "Recipients".toList text.toList = false →
      (extract_base_data text).recipients = (extract_base_data text).issuer) ∧
    (containsSub "Recipients".toList (normalizeSummaryText text).toList = false →
      (extract_invoice_summary text src).header.recipients =
        (extract_invoice_summary text src).header.issuer) := by
  constructor
  · intro h
    simp only [extract_base_data, splitRecipientsLast_of_not_contains text h]
  · intro h
    simp only [extract_invoice_summary,
      splitRecipientsLast_of_not_contains (normalizeSummaryText text) h]

/-- C10(witness): both equalities at a text free of "Recipients" before
and after normalisation. -/
theorem recipients_equals_issuer_when_absent_witness :
    (containsSub "Recipients".toList "Taxpayer Name: A".toList = false) ∧
    (containsSub "Recipients".toList (normalizeSummaryText "Taxpayer Name: A").toList
      = false) ∧
    (extract_base_data "Taxpayer Name: A").recipients =
      (extract_base_data "Taxpayer Name: A").issuer ∧
    (extract_invoice_summary "Taxpayer Name: A" "f.pdf").header.recipients =
      (extract_invoice_summary "Taxpayer Name: A" "f.pdf").header.issuer :=
  ⟨by decide, by decide,
    (recipients_equals_issuer_when_absent "Taxpayer Name: A" "f.pdf").1 (by decide),
    (recipients_equals_issuer_when_absent "Taxpayer Name: A" "f.pdf").2 (by decide)⟩

/-! ### C8 — the batch guard -/
theorem lineGroupOf_eq_none (d : UploadedDoc) :
    lineGroupOf d = none ↔ extract_invoice_line_items d.text d.tables = [] := by
  simp only [lineGroupOf]
  by_cases h : (extract_invoice_line_items d.text d.tables).isEmpty
  · rw [if_pos h]
    simp [List.isEmpty_iff.mp h]
  · rw [if_neg h]
    exact iff_of_false (by simp) (fun he => h (by simp [he]))

/-- C8: once some file is selected, if the batch yields zero usable line
items (every considered PDF's line-item DataFrame is empty) the handler
reports the user-visible error and produces no output; if some PDF yields
line items (and hence the summary list, to which every considered PDF
contributes one row, is non-empty too) a merged output is produced. -/
theorem batch_guard (docs : List UploadedDoc)
    (hsel : (docs.isEmpty || docs.all (fun d => d.filename == "")) = false) :
    ((∀ d ∈ docs.filter isPdfDoc, extract_invoice_line_items d.text d.tables = []) →
      processBatch docs = .error "Failed to extract data from PDF files") ∧
    ((∃ d ∈ docs.filter isPdfDoc, extract_invoice_line_items d.text d.tables ≠ []) →
      ∃ out : List MergedRecord, processBatch docs = .ok out) := by
  constructor
  · intro hall
    have hlg : (docs.filter isPdfDoc).filterMap lineGroupOf = [] := by
      rw [List.filterMap_eq_nil_iff]
      intro d hd
      exact (lineGroupOf_eq_none d).mpr (hall d hd)
    simp only [processBatch, hsel, Bool.false_eq_true, if_false, hlg]
    rfl
  · rintro ⟨d, hd, hne⟩
    have hsome : ∃ g, lineGroupOf d = some g := by
      cases hg : lineGroupOf d with
      | none => exact absurd ((lineGroupOf_eq_none d).mp hg) hne
      | some g => exact ⟨g, rfl⟩
    obtain ⟨g, hg⟩ := hsome
    have hlg : g ∈ (docs.filter isPdfDoc).filterMap lineGroupOf :=
      List.mem_filterMap.mpr ⟨d, hd, hg⟩
    have hlgne : ((docs.filter isPdfDoc).filterMap lineGroupOf).isEmpty = false := by
      cases hcase : (docs.filter isPdfDoc).filterMap lineGroupOf with
      | nil => rw [hcase] at hlg; exact absurd hlg (List.not_mem_nil g)
      | cons a l => rfl
    have hsumne : ((docs.filter isPdfDoc).map
        (fun d => extract_invoice_summary d.text d.filename)).isEmpty = false := by
      cases hcase : docs.filter isPdfDoc with
      | nil => rw [hcase] at hd; exact absurd hd (List.not_mem_nil d)
      | cons a l => rfl
    refine ⟨mergeTables ((docs.filter isPdfDoc).filterMap lineGroupOf).flatten
      ((docs.filter isPdfDoc).map (fun d => extract_invoice_summary d.text d.filename)), ?_⟩
    simp only [processBatch, hsel, Bool.false_eq_true, if_false, hlgne, hsumne,
      Bool.or_self, if_false]

/-- C8(witness): a one-file batch whose table yields a line item produces
a merged output; the guard hypotheses hold concretely. -/
theorem batch_guard_witness :
    (([docW] : List UploadedDoc).isEmpty ||
      ([docW] : List UploadedDoc).all (fun d => d.filename == "")) = false ∧
    (∃ d ∈ ([docW] : List UploadedDoc).filter isPdfDoc,
      extract_invoice_line_items d.text d.tables ≠ []) ∧
    (∃ out : List MergedRecord, processBatch [docW] = .ok out) := by
  have h := (batch_guard [docW] (by decide)).2 (by decide)
  exact ⟨by decide, by decide, h⟩
